import Mathlib

/-!
Shallow embedding of the RP2040 USB host-controller driver
(`cotton-usb-host/src/host/rp2040.rs`): the packetiser / depacketiser state
machines, the control-transfer engine's stage structure and error
classification, and the interrupt-pipe poll engines, together with proofs
of the specified properties.

Machine integers (`u8`, `u16`, `usize`) are modelled as `Nat`: every
arithmetic operation performed by the embedded code (`%`, `-`, `+`, `min`)
stays within the original type's range on the guarded paths, so no wrap-around
is lost by this choice (subtraction is always of the form `remain - len` with
`len <= remain`).
-/

/-- Model of one `EP_BUFFER_CONTROL` register of the RP2040 USB DPRAM:
the per-half fields {full, pid, last, length, available} read and written by
the packetisers, depacketisers and interrupt-pipe engines. -/
structure BufCtrl where
  full_0 : Bool := false
  pid_0 : Bool := false
  last_0 : Bool := false
  available_0 : Bool := false
  length_0 : Nat := 0
  full_1 : Bool := false
  pid_1 : Bool := false
  last_1 : Bool := false
  available_1 : Bool := false
  length_1 : Nat := 0
  deriving DecidableEq

/-- Modelled from the spec: the error taxonomy of section 7.  The `UsbError`
enum itself is declared in `host_controller.rs`, which is not among the
sources; the variants used by `rp2040.rs` are `DataSeqError`, `Stall`,
`Overflow`, `Timeout`, `BitStuffError`, `CrcError`, `BufferTooSmall` and
`AllPipesInUse`. -/
inductive UsbError where
  | Stall
  | DataSeqError
  | Overflow
  | Timeout
  | BitStuffError
  | CrcError
  | BufferTooSmall
  | AllPipesInUse
  | ProtocolError
  deriving DecidableEq

/-- Modelled from the spec: the transfer direction (`wire::Direction`, whose
declaration is not among the sources; `rp2040.rs` uses `Direction::In` and
`Direction::Out`). -/
inductive Direction where
  | In
  | Out
  deriving DecidableEq

/-- Modelled from the spec: `data_phase: In(buf)|Out(buf)|None`
(`host_controller.rs` is not among the sources).  The caller's buffer is
abstracted to its length, which is all the control-transfer engine's
control flow depends on. -/
inductive DataPhase where
  | In (buflen : Nat)
  | Out (buflen : Nat)
  | None
  deriving DecidableEq

/-! ## InPacketiser (rp2040.rs lines 465-550) -/

/-- `InPacketiser`: state machine preparing IN packet slots.  Fields mirror
the Rust struct (`next_prep: u8`, `remain: u16`, `packet_size: u16`,
`need_zero_size_packet: bool`). -/
structure InPacketiser where
  next_prep : Nat
  remain : Nat
  packet_size : Nat
  need_zero_size_packet : Bool
  deriving DecidableEq

/-- `InPacketiser::new(remain, packet_size)`. -/
def InPacketiser.new (remain packet_size : Nat) : InPacketiser :=
  { next_prep := 0
    remain := remain
    packet_size := packet_size
    need_zero_size_packet := remain % packet_size == 0 }

/-- `InPacketiser::next_packet`: returns `(length, is_last)` of the next
packet, or `None`.  The only state it mutates is clearing
`need_zero_size_packet` when the trailing zero-length packet is emitted. -/
def InPacketiser.next_packet (p : InPacketiser) :
    Option ((Nat × Bool) × InPacketiser) :=
  if p.remain = 0 then
    if p.need_zero_size_packet then
      some ((0, true), { p with need_zero_size_packet := false })
    else
      none
  else if p.remain < p.packet_size then
    some ((p.remain, true), p)
  else if p.remain > p.packet_size then
    some ((p.packet_size, false), p)
  else
    some ((p.remain, false), p)

/-- One emission step as performed inside `InPacketiser::prepare`:
`next_packet` followed by `self.remain -= this_packet`. -/
def InPacketiser.step (p : InPacketiser) :
    Option ((Nat × Bool) × InPacketiser) :=
  match p.next_packet with
  | none => none
  | some ((len, is_last), p') =>
    some ((len, is_last), { p' with remain := p'.remain - len })

/-- The `(length, is_last)` sequence produced by repeatedly stepping the
packetiser, bounded by `fuel` iterations. -/
def InPacketiser.traceFuel : Nat → InPacketiser → List (Nat × Bool)
  | 0, _ => []
  | fuel + 1, p =>
    match p.step with
    | none => []
    | some ((len, is_last), p') => (len, is_last) :: traceFuel fuel p'

/-- The complete packet sequence: `2 * remain + 2` iterations always reach
the `None` answer of `next_packet` (see `InPacketiser.traceFuel_stable`). -/
def InPacketiser.run (p : InPacketiser) : List (Nat × Bool) :=
  InPacketiser.traceFuel (2 * p.remain + 2) p

/-- Termination measure for the packetiser loop. -/
def InPacketiser.fuelMeasure (p : InPacketiser) : Nat :=
  2 * p.remain + (if p.need_zero_size_packet then 1 else 0)

/-- Whether a packet sequence ends in a zero-length packet. -/
def lastLenZero (l : List (Nat × Bool)) : Bool :=
  match l.getLast? with
  | some x => x.1 == 0
  | none => false

/-! ## OutPacketiser (rp2040.rs lines 552-660) -/

/-- `OutPacketiser`: state machine preparing OUT packets from the caller's
buffer.  Fields mirror the Rust struct; the borrowed buffer `buf: &[u8]` is
abstracted to its length `buflen` (the engine's control flow and its buffer
indices never depend on the byte values). -/
structure OutPacketiser where
  next_prep : Nat
  remain : Nat
  offset : Nat
  packet_size : Nat
  need_zero_size_packet : Bool
  buflen : Nat
  deriving DecidableEq

/-- `OutPacketiser::new(size, packet_size, buf)`. -/
def OutPacketiser.new (size packet_size buflen : Nat) : OutPacketiser :=
  { next_prep := 0
    remain := size
    offset := 0
    packet_size := packet_size
    need_zero_size_packet := size % packet_size == 0
    buflen := buflen }

/-- `OutPacketiser::next_packet` (same policy as the IN direction). -/
def OutPacketiser.next_packet (p : OutPacketiser) :
    Option ((Nat × Bool) × OutPacketiser) :=
  if p.remain = 0 then
    if p.need_zero_size_packet then
      some ((0, true), { p with need_zero_size_packet := false })
    else
      none
  else if p.remain < p.packet_size then
    some ((p.remain, true), p)
  else if p.remain > p.packet_size then
    some ((p.packet_size, false), p)
  else
    some ((p.remain, false), p)

/-- One emission step as performed inside `OutPacketiser::prepare`:
`next_packet` followed by `self.remain -= this_packet` and
`self.offset += this_packet`. -/
def OutPacketiser.step (p : OutPacketiser) :
    Option ((Nat × Bool) × OutPacketiser) :=
  match p.next_packet with
  | none => none
  | some ((len, is_last), p') =>
    some ((len, is_last),
      { p' with remain := p'.remain - len, offset := p'.offset + len })

/-- The `(length, is_last)` sequence produced by repeatedly stepping the
out-packetiser, bounded by `fuel` iterations. -/
def OutPacketiser.traceFuel : Nat → OutPacketiser → List (Nat × Bool)
  | 0, _ => []
  | fuel + 1, p =>
    match p.step with
    | none => []
    | some ((len, is_last), p') => (len, is_last) :: traceFuel fuel p'

/-- The complete packet sequence of the out-packetiser. -/
def OutPacketiser.run (p : OutPacketiser) : List (Nat × Bool) :=
  OutPacketiser.traceFuel (2 * p.remain + 2) p

/-- Forgetting the OUT-only fields (`offset`, `buflen`) yields an
`InPacketiser` with the identical emission behaviour. -/
def OutPacketiser.toIn (p : OutPacketiser) : InPacketiser :=
  { next_prep := p.next_prep
    remain := p.remain
    packet_size := p.packet_size
    need_zero_size_packet := p.need_zero_size_packet }

/-- `Packetiser::prepare` for `InPacketiser` (rp2040.rs lines 501-550),
acting on one buffer-control register.  Half 0 is armed with
`pid_0().set_bit()` (pid = true), half 1 with `pid_1().clear_bit()`
(pid = false); the two `reg.modify` calls are collapsed into a single write.
The third component observes the pid value written when a packet was
successfully armed (`none` when nothing was armed). -/
def InPacketiser.prepare (p : InPacketiser) (reg : BufCtrl) :
    InPacketiser × BufCtrl × Option Bool :=
  match p.next_prep with
  | 0 =>
    if reg.available_0 then (p, reg, none)
    else
      match p.next_packet with
      | some ((this_packet, is_last), p') =>
        ({ p' with remain := p'.remain - this_packet, next_prep := 1 },
         { reg with full_0 := false, pid_0 := true, last_0 := is_last,
                    length_0 := this_packet, available_0 := true },
         some true)
      | none => (p, reg, none)
  | _ =>
    if reg.available_1 then (p, reg, none)
    else
      match p.next_packet with
      | some ((this_packet, is_last), p') =>
        ({ p' with remain := p'.remain - this_packet, next_prep := 0 },
         { reg with full_1 := false, pid_1 := false, last_1 := is_last,
                    length_1 := this_packet, available_1 := true },
         some false)
      | none => (p, reg, none)

/-- The pid bits written by consecutive `prepare` calls that successfully
armed a packet, over a given sequence of register read values. -/
def InPacketiser.armedPids : InPacketiser → List BufCtrl → List Bool
  | _, [] => []
  | p, r :: rs =>
    match p.prepare r with
    | (p', _, some pid) => pid :: InPacketiser.armedPids p' rs
    | (p', _, none) => InPacketiser.armedPids p' rs

/-- `Packetiser::prepare` for `OutPacketiser` (rp2040.rs lines 592-660).
The third component lists the indices of the caller's buffer that the Rust
code bounds-checks and reads in this call: both halves copy
`buf[offset .. offset + this_packet)`, but half 0 guards the whole copy with
`if this_packet > 0` while half 1 evaluates `&self.buf[self.offset]`
unconditionally, so for a zero-length packet half 1 still bounds-checks the
index `offset`.  Half 0 likewise only sets `full_0` when `this_packet > 0`
(the `@todo` "if" in the source); half 1 always sets `full_1`. -/
def OutPacketiser.prepare (p : OutPacketiser) (reg : BufCtrl) :
    OutPacketiser × BufCtrl × List Nat :=
  match p.next_prep with
  | 0 =>
    if reg.available_0 then (p, reg, [])
    else
      match p.next_packet with
      | some ((this_packet, is_last), p') =>
        ({ p' with remain := p'.remain - this_packet,
                   offset := p'.offset + this_packet, next_prep := 1 },
         { reg with full_0 := if 0 < this_packet then true else reg.full_0,
                    pid_0 := true, last_0 := is_last,
                    length_0 := this_packet, available_0 := true },
         if 0 < this_packet then List.range' p'.offset this_packet else [])
      | none => (p, reg, [])
  | _ =>
    if reg.available_1 then (p, reg, [])
    else
      match p.next_packet with
      | some ((this_packet, is_last), p') =>
        ({ p' with remain := p'.remain - this_packet,
                   offset := p'.offset + this_packet, next_prep := 0 },
         { reg with full_1 := true, pid_1 := false, last_1 := is_last,
                    length_1 := this_packet, available_1 := true },
         if 0 < this_packet then List.range' p'.offset this_packet
         else [p'.offset])
      | none => (p, reg, [])

/-- All buffer indices touched by `fuel` successive `prepare` calls, each
made with a fresh register whose `available` bits are clear (the hardware
has consumed both halves), as the control-transfer loop does between
transactions. -/
def OutPacketiser.runAccesses : Nat → OutPacketiser → List Nat
  | 0, _ => []
  | fuel + 1, p =>
    match p.prepare {} with
    | (p', _, acc) => acc ++ OutPacketiser.runAccesses fuel p'

/-! ## InDepacketiser (rp2040.rs lines 666-738) -/

/-- `InDepacketiser`: retires full IN buffer halves into the caller's
buffer.  The borrowed buffer is abstracted away: the engine's arithmetic
(`remain`, `offset`, the per-packet `min`) never depends on byte values,
and `total()` is just `offset`. -/
structure InDepacketiser where
  next_retire : Nat
  remain : Nat
  offset : Nat
  deriving DecidableEq

/-- `InDepacketiser::new(size, buf)`. -/
def InDepacketiser.new (size : Nat) : InDepacketiser :=
  { next_retire := 0, remain := size, offset := 0 }

/-- `InDepacketiser::total()`. -/
def InDepacketiser.total (d : InDepacketiser) : Nat :=
  d.offset

/-- `Depacketiser::retire` for `InDepacketiser`: if the expected half is
full, copies `min(remain, reported length)` bytes and alternates halves.
Also returns the number of bytes copied out of this packet. -/
def InDepacketiser.retire (d : InDepacketiser) (val : BufCtrl) :
    InDepacketiser × Nat :=
  match d.next_retire with
  | 0 =>
    if val.full_0 then
      let this_packet := min d.remain val.length_0
      ({ next_retire := 1, remain := d.remain - this_packet,
         offset := d.offset + this_packet }, this_packet)
    else (d, 0)
  | _ =>
    if val.full_1 then
      let this_packet := min d.remain val.length_1
      ({ next_retire := 0, remain := d.remain - this_packet,
         offset := d.offset + this_packet }, this_packet)
    else (d, 0)

/-- Depacketiser state after a sequence of `retire` calls with the given
register read values. -/
def InDepacketiser.runState (size : Nat) (reads : List BufCtrl) :
    InDepacketiser :=
  reads.foldl (fun d r => (d.retire r).1) (InDepacketiser.new size)

/-- `total()` after a sequence of `retire` calls. -/
def InDepacketiser.runTotal (size : Nat) (reads : List BufCtrl) : Nat :=
  (InDepacketiser.runState size reads).total

/-! ## SIE status and the control-endpoint completion loop
(rp2040.rs lines 884-926 and 1032-1096) -/

/-- The `sie_status` register bits inspected by the control-transfer
engine. -/
structure SieStatus where
  trans_complete : Bool := false
  data_seq_error : Bool := false
  stall_rec : Bool := false
  nak_rec : Bool := false
  rx_overflow : Bool := false
  rx_timeout : Bool := false
  bit_stuff_error : Bool := false
  crc_error : Bool := false
  deriving DecidableEq

/-- The ordered error-flag checks shared verbatim by `send_setup` and
`control_transfer_inner`: data-sequence error, stall, receive overflow,
receive timeout, bit-stuff error, CRC error.  The `nak_rec` check is
commented out in the source and the nak bit is never read. -/
def errorCheck (s : SieStatus) : Option UsbError :=
  if s.data_seq_error then some UsbError.DataSeqError
  else if s.stall_rec then some UsbError.Stall
  else if s.rx_overflow then some UsbError.Overflow
  else if s.rx_timeout then some UsbError.Timeout
  else if s.bit_stuff_error then some UsbError.BitStuffError
  else if s.crc_error then some UsbError.CrcError
  else none

/-- The fixed priority order of the error flags, as (flag value, error)
pairs. -/
def errorPriority (s : SieStatus) : List (Bool × UsbError) :=
  [(s.data_seq_error, UsbError.DataSeqError),
   (s.stall_rec, UsbError.Stall),
   (s.rx_overflow, UsbError.Overflow),
   (s.rx_timeout, UsbError.Timeout),
   (s.bit_stuff_error, UsbError.BitStuffError),
   (s.crc_error, UsbError.CrcError)]

/-- Outcome of the completion-await loop. -/
inductive LoopOutcome where
  | completed
  | failed (e : UsbError)
  deriving DecidableEq

/-- The completion-await loop of `send_setup` / `control_transfer_inner`
over the sequence of statuses observed at successive wake-ups: break on
`trans_complete`, return the first matching error flag otherwise, and loop
(here: consume the next status) when no flag is set — which is what happens
on a NAK. `none` means the loop is still suspended after consuming every
status in the list. -/
def runAwaitLoop : List SieStatus → Option LoopOutcome
  | [] => none
  | s :: rest =>
    if s.trans_complete then some LoopOutcome.completed
    else
      match errorCheck s with
      | some e => some (LoopOutcome.failed e)
      | none => runAwaitLoop rest

/-! ## Control-transfer engine (rp2040.rs lines 1112-1212) -/

/-- A hardware-programming action of one control transfer, in order:
`setupStage` is `send_setup` (SETUP registers written, transaction
started); `dataStage dir size` is `control_transfer_inner` programming a
(possibly zero-length) data phase of `size` bytes in direction `dir`. -/
inductive HwTouch where
  | setupStage
  | dataStage (dir : Direction) (size : Nat)
  deriving DecidableEq

/-- `Rp2040HostController::control_transfer_in` (lines 1112-1137) on the
path where the transaction completes: the `BufferTooSmall` check comes
first, before any hardware access of this function; otherwise the data
stage runs and the depacketiser total over the observed register reads is
returned.  The first component is the list of hardware-programming actions
performed. -/
def control_transfer_in (size buflen : Nat) (reads : List BufCtrl) :
    List HwTouch × Except UsbError Nat :=
  if buflen < size then ([], Except.error UsbError.BufferTooSmall)
  else ([HwTouch.dataStage Direction.In size],
        Except.ok (InDepacketiser.runTotal size reads))

/-- `Rp2040HostController::control_transfer_out` (lines 1139-1164) on the
completing path: checks `BufferTooSmall` first, then runs the OUT data
stage and returns `Ok(buf.len())`. -/
def control_transfer_out (size buflen : Nat) :
    List HwTouch × Except UsbError Nat :=
  if buflen < size then ([], Except.error UsbError.BufferTooSmall)
  else ([HwTouch.dataStage Direction.Out size], Except.ok buflen)

/-- `Rp2040HostController::control_transfer` (lines 1176-1212) on the path
where the SETUP stage completes successfully (SIE errors during a stage are
modelled separately by `errorCheck` / `runAwaitLoop`): `send_setup` first,
then the data phase.  `In(buf)` runs only the IN data stage; `Out(buf)`
runs the OUT data stage, then a zero-length IN (`control_transfer_in` with
size 0 and an empty buffer) whose result is the one returned; `None` runs
only the zero-length IN.  `dataReads` / `statusReads` are the register
values observed by the depacketiser during the data and the zero-length
stage respectively. -/
def control_transfer (packet_size wLength : Nat) (data_phase : DataPhase)
    (dataReads statusReads : List BufCtrl) :
    List HwTouch × Except UsbError Nat :=
  match data_phase with
  | DataPhase.In buflen =>
    match control_transfer_in wLength buflen dataReads with
    | (t, r) => (HwTouch.setupStage :: t, r)
  | DataPhase.Out buflen =>
    match control_transfer_out wLength buflen with
    | (t, Except.error e) => (HwTouch.setupStage :: t, Except.error e)
    | (t, Except.ok _) =>
      match control_transfer_in 0 0 statusReads with
      | (t2, r2) => (HwTouch.setupStage :: (t ++ t2), r2)
  | DataPhase.None =>
    match control_transfer_in 0 0 statusReads with
    | (t, r) => (HwTouch.setupStage :: t, r)

/-! ## Interrupt-pipe engines (rp2040.rs lines 206-459) -/

/-- Modelled from the spec: `InterruptPacket` (declared in
`host_controller.rs`, not among the sources): a fixed 64-byte buffer plus
actual length, and the originating address/endpoint for the multiplexed
variant.  `data` holds the bytes actually copied in. -/
structure InterruptPacket where
  address : Nat := 0
  endpoint : Nat := 0
  size : Nat := 0
  data : List Nat := []
  deriving DecidableEq

/-- Per-slot metadata of the multiplexed engine (rp2040.rs lines 297-302). -/
structure PipeInfo where
  address : Nat
  endpoint : Nat
  max_packet_size : Nat
  data_toggle : Bool
  deriving DecidableEq

/-- `Rp2040InterruptPipe::poll` (lines 218-292): if half 0 is full, build a
packet of `min(length_0, 64)` bytes copied from the pipe's 64-byte DPRAM
window `mem`, toggle `data_toggle`, and re-arm the buffer writing the new
toggle as pid; otherwise leave the toggle unchanged (the interrupt
re-enable writes touch no buffer-control state).  Returns (new toggle,
register after the re-arm write, optional packet). -/
def Rp2040InterruptPipe.poll (data_toggle : Bool) (max_packet_size : Nat)
    (bc : BufCtrl) (mem : List Nat) : Bool × BufCtrl × Option InterruptPacket :=
  if bc.full_0 then
    let size := min bc.length_0 64
    let result : InterruptPacket := { size := size, data := mem.take size }
    let dt := !data_toggle
    (dt,
     { bc with full_0 := false, pid_0 := dt, length_0 := max_packet_size,
               last_0 := true, available_0 := true },
     some result)
  else (data_toggle, bc, none)

/-- The pid bits written by successive `poll` calls that returned a packet,
over a sequence of (register, DPRAM window) observations. -/
def Rp2040InterruptPipe.pollPids (max_packet_size : Nat) :
    Bool → List (BufCtrl × List Nat) → List Bool
  | _, [] => []
  | dt, (bc, mem) :: rest =>
    match Rp2040InterruptPipe.poll dt max_packet_size bc mem with
    | (dt', _, some _) => dt' :: Rp2040InterruptPipe.pollPids max_packet_size dt' rest
    | (dt', _, none) => Rp2040InterruptPipe.pollPids max_packet_size dt' rest

/-- `alloc_interrupt_pipe` (lines 1252-1267) arms buffer half 0 with
`pid_0().clear_bit()` and starts the pipe's `data_toggle` at `false`; this
is the pid of the first armed packet. -/
def Rp2040InterruptPipe.initialPid : Bool := false

/-- `Rp2040MultiInterruptPipe::poll` (lines 318-390): scan the owned slots
in order, return a packet built from the first full half 0 found, tagged
with that slot's address/endpoint. -/
def Rp2040MultiInterruptPipe.poll :
    List (PipeInfo × BufCtrl × List Nat) → Option InterruptPacket
  | [] => none
  | (info, bc, mem) :: rest =>
    if bc.full_0 then
      some { address := info.address, endpoint := info.endpoint,
             size := min bc.length_0 64,
             data := mem.take (min bc.length_0 64) }
    else Rp2040MultiInterruptPipe.poll rest

/-- `alternating b l`: `l` is `[b, !b, b, !b, ...]`. -/
def alternating : Bool → List Bool → Bool
  | _, [] => true
  | b, x :: xs => x == b && alternating (!x) xs

/-! ## Packetiser trace lemmas -/

theorem InPacketiser.traceFuel_eq_nil_iff (fuel : Nat) (p : InPacketiser)
    (hf : 0 < fuel) :
    InPacketiser.traceFuel fuel p = [] ↔
      (p.remain = 0 ∧ p.need_zero_size_packet = false) := by
  cases fuel with
  | zero => omega
  | succ f =>
    rcases p with ⟨np, r, ps, z⟩
    by_cases h0 : r = 0
    · subst h0
      cases z <;>
        simp [InPacketiser.traceFuel, InPacketiser.step,
          InPacketiser.next_packet]
    · by_cases h1 : r < ps
      · simp [InPacketiser.traceFuel, InPacketiser.step,
          InPacketiser.next_packet, h0, h1]
      · by_cases h2 : ps < r
        · simp [InPacketiser.traceFuel, InPacketiser.step,
            InPacketiser.next_packet, h0, h1, h2]
        · simp [InPacketiser.traceFuel, InPacketiser.step,
            InPacketiser.next_packet, h0, h1, h2]

theorem InPacketiser.sum_traceFuel (fuel : Nat) :
    ∀ p : InPacketiser, 0 < p.packet_size → p.fuelMeasure < fuel →
      ((InPacketiser.traceFuel fuel p).map Prod.fst).sum = p.remain := by
  induction fuel with
  | zero =>
    intro p hps hf
    exact absurd hf (Nat.not_lt_zero _)
  | succ f ih =>
    intro p hps hf
    rcases p with ⟨np, r, ps, z⟩
    simp only [InPacketiser.fuelMeasure] at hf
    simp only at hps hf
    have hmf : ∀ z' : Bool, InPacketiser.fuelMeasure ⟨np, 0, ps, z'⟩ =
        if z' then 1 else 0 := by
      intro z'
      simp [InPacketiser.fuelMeasure]
    cases z with
    | false =>
      simp only [Bool.false_eq_true, if_false, Nat.add_zero] at hf
      by_cases h0 : r = 0
      · subst h0
        simp [InPacketiser.traceFuel, InPacketiser.step,
          InPacketiser.next_packet]
      · by_cases h1 : r < ps
        · have htail := ih ⟨np, 0, ps, false⟩ hps
            (by rw [hmf]; simp; omega)
          simp [InPacketiser.traceFuel, InPacketiser.step,
            InPacketiser.next_packet, h0, h1] at htail ⊢
          exact htail
        · by_cases h2 : ps < r
          · have htail := ih ⟨np, r - ps, ps, false⟩ hps
              (by simp [InPacketiser.fuelMeasure]; omega)
            simp [InPacketiser.traceFuel, InPacketiser.step,
              InPacketiser.next_packet, h0, h1, h2] at htail ⊢
            rw [htail]
            omega
          · have htail := ih ⟨np, 0, ps, false⟩ hps
              (by rw [hmf]; simp; omega)
            simp [InPacketiser.traceFuel, InPacketiser.step,
              InPacketiser.next_packet, h0, h1, h2] at htail ⊢
            exact htail
    | true =>
      simp only [if_true] at hf
      by_cases h0 : r = 0
      · subst h0
        have htail := ih ⟨np, 0, ps, false⟩ hps
          (by rw [hmf]; simp; omega)
        simp [InPacketiser.traceFuel, InPacketiser.step,
          InPacketiser.next_packet] at htail ⊢
        exact htail
      · by_cases h1 : r < ps
        · have htail := ih ⟨np, 0, ps, true⟩ hps
            (by rw [hmf]; simp; omega)
          simp [InPacketiser.traceFuel, InPacketiser.step,
            InPacketiser.next_packet, h0, h1] at htail ⊢
          exact htail
        · by_cases h2 : ps < r
          · have htail := ih ⟨np, r - ps, ps, true⟩ hps
              (by simp [InPacketiser.fuelMeasure]; omega)
            simp [InPacketiser.traceFuel, InPacketiser.step,
              InPacketiser.next_packet, h0, h1, h2] at htail ⊢
            rw [htail]
            omega
          · have htail := ih ⟨np, 0, ps, true⟩ hps
              (by rw [hmf]; simp; omega)
            simp [InPacketiser.traceFuel, InPacketiser.step,
              InPacketiser.next_packet, h0, h1, h2] at htail ⊢
            exact htail

theorem InPacketiser.traceFuel_stable (fuel : Nat) :
    ∀ (p : InPacketiser) (fuel₂ : Nat), 0 < p.packet_size →
      p.fuelMeasure < fuel → p.fuelMeasure < fuel₂ →
      InPacketiser.traceFuel fuel p = InPacketiser.traceFuel fuel₂ p := by
  induction fuel with
  | zero =>
    intro p f₂ hps hf hf₂
    exact absurd hf (Nat.not_lt_zero _)
  | succ f ih =>
    intro p f₂ hps hf hf₂
    cases f₂ with
    | zero => exact absurd hf₂ (Nat.not_lt_zero _)
    | succ f₂ =>
      rcases p with ⟨np, r, ps, z⟩
      simp only [InPacketiser.fuelMeasure] at hf hf₂
      simp only at hps hf hf₂
      cases z with
      | false =>
        simp only [Bool.false_eq_true, if_false, Nat.add_zero] at hf hf₂
        by_cases h0 : r = 0
        · subst h0
          simp [InPacketiser.traceFuel, InPacketiser.step,
            InPacketiser.next_packet]
        · by_cases h1 : r < ps
          · simp [InPacketiser.traceFuel, InPacketiser.step,
              InPacketiser.next_packet, h0, h1]
            exact ih ⟨np, 0, ps, false⟩ f₂ hps
              (by simp [InPacketiser.fuelMeasure]; omega)
              (by simp [InPacketiser.fuelMeasure]; omega)
          · by_cases h2 : ps < r
            · simp [InPacketiser.traceFuel, InPacketiser.step,
                InPacketiser.next_packet, h0, h1, h2]
              exact ih ⟨np, r - ps, ps, false⟩ f₂ hps
                (by simp [InPacketiser.fuelMeasure]; omega)
                (by simp [InPacketiser.fuelMeasure]; omega)
            · simp [InPacketiser.traceFuel, InPacketiser.step,
                InPacketiser.next_packet, h0, h1, h2]
              exact ih ⟨np, 0, ps, false⟩ f₂ hps
                (by simp [InPacketiser.fuelMeasure]; omega)
                (by simp [InPacketiser.fuelMeasure]; omega)
      | true =>
        simp only [if_true] at hf hf₂
        by_cases h0 : r = 0
        · subst h0
          simp [InPacketiser.traceFuel, InPacketiser.step,
            InPacketiser.next_packet]
          exact ih ⟨np, 0, ps, false⟩ f₂ hps
            (by simp [InPacketiser.fuelMeasure]; omega)
            (by simp [InPacketiser.fuelMeasure]; omega)
        · by_cases h1 : r < ps
          · simp [InPacketiser.traceFuel, InPacketiser.step,
              InPacketiser.next_packet, h0, h1]
            exact ih ⟨np, 0, ps, true⟩ f₂ hps
              (by simp [InPacketiser.fuelMeasure]; omega)
              (by simp [InPacketiser.fuelMeasure]; omega)
          · by_cases h2 : ps < r
            · simp [InPacketiser.traceFuel, InPacketiser.step,
                InPacketiser.next_packet, h0, h1, h2]
              exact ih ⟨np, r - ps, ps, true⟩ f₂ hps
                (by simp [InPacketiser.fuelMeasure]; omega)
                (by simp [InPacketiser.fuelMeasure]; omega)
            · simp [InPacketiser.traceFuel, InPacketiser.step,
                InPacketiser.next_packet, h0, h1, h2]
              exact ih ⟨np, 0, ps, true⟩ f₂ hps
                (by simp [InPacketiser.fuelMeasure]; omega)
                (by simp [InPacketiser.fuelMeasure]; omega)

theorem lastLenZero_cons (x : Nat × Bool) (l : List (Nat × Bool))
    (h : l ≠ []) : lastLenZero (x :: l) = lastLenZero l := by
  cases l with
  | nil => exact absurd rfl h
  | cons y ys => simp [lastLenZero, List.getLast?_cons_cons]

theorem InPacketiser.lastLenZero_traceFuel (fuel : Nat) :
    ∀ p : InPacketiser, 0 < p.packet_size → p.fuelMeasure < fuel →
      lastLenZero (InPacketiser.traceFuel fuel p) =
        p.need_zero_size_packet := by
  induction fuel with
  | zero =>
    intro p hps hf
    exact absurd hf (Nat.not_lt_zero _)
  | succ f ih =>
    intro p hps hf
    rcases p with ⟨np, r, ps, z⟩
    simp only [InPacketiser.fuelMeasure] at hf
    simp only at hps hf
    cases z with
    | false =>
      simp only [Bool.false_eq_true, if_false, Nat.add_zero] at hf
      by_cases h0 : r = 0
      · subst h0
        simp [InPacketiser.traceFuel, InPacketiser.step,
          InPacketiser.next_packet, lastLenZero]
      · by_cases h1 : r < ps
        · have htail : InPacketiser.traceFuel f ⟨np, 0, ps, false⟩ = [] := by
            rw [InPacketiser.traceFuel_eq_nil_iff f ⟨np, 0, ps, false⟩
              (by omega)]
            exact ⟨rfl, rfl⟩
          simp [InPacketiser.traceFuel, InPacketiser.step,
            InPacketiser.next_packet, h0, h1, htail, lastLenZero]
        · by_cases h2 : ps < r
          · have hne : InPacketiser.traceFuel f ⟨np, r - ps, ps, false⟩ ≠ [] := by
              rw [Ne, InPacketiser.traceFuel_eq_nil_iff f _ (by omega)]
              intro h
              have h' : r - ps = 0 := h.1
              omega
            have htail := ih ⟨np, r - ps, ps, false⟩ hps
              (by simp [InPacketiser.fuelMeasure]; omega)
            simp only [InPacketiser.traceFuel, InPacketiser.step,
              InPacketiser.next_packet, if_neg h0, if_neg h1, gt_iff_lt,
              if_pos h2]
            rw [lastLenZero_cons _ _ hne]
            exact htail
          · have hrps : r = ps := by omega
            have htail : InPacketiser.traceFuel f ⟨np, 0, ps, false⟩ = [] := by
              rw [InPacketiser.traceFuel_eq_nil_iff f ⟨np, 0, ps, false⟩
                (by omega)]
              exact ⟨rfl, rfl⟩
            simp [InPacketiser.traceFuel, InPacketiser.step,
              InPacketiser.next_packet, h0, h1, h2, htail, lastLenZero]
    | true =>
      simp only [if_true] at hf
      by_cases h0 : r = 0
      · subst h0
        have htail : InPacketiser.traceFuel f ⟨np, 0, ps, false⟩ = [] := by
          rw [InPacketiser.traceFuel_eq_nil_iff f ⟨np, 0, ps, false⟩
            (by omega)]
          exact ⟨rfl, rfl⟩
        simp [InPacketiser.traceFuel, InPacketiser.step,
          InPacketiser.next_packet, htail, lastLenZero]
      · by_cases h1 : r < ps
        · have hne : InPacketiser.traceFuel f ⟨np, 0, ps, true⟩ ≠ [] := by
            rw [Ne, InPacketiser.traceFuel_eq_nil_iff f _ (by omega)]
            simp
          have htail := ih ⟨np, 0, ps, true⟩ hps
            (by simp [InPacketiser.fuelMeasure]; omega)
          simp only [InPacketiser.traceFuel, InPacketiser.step,
            InPacketiser.next_packet, if_neg h0, if_pos h1, Nat.sub_self]
          rw [lastLenZero_cons _ _ hne]
          exact htail
        · by_cases h2 : ps < r
          · have hne : InPacketiser.traceFuel f ⟨np, r - ps, ps, true⟩ ≠ [] := by
              rw [Ne, InPacketiser.traceFuel_eq_nil_iff f _ (by omega)]
              simp
            have htail := ih ⟨np, r - ps, ps, true⟩ hps
              (by simp [InPacketiser.fuelMeasure]; omega)
            simp only [InPacketiser.traceFuel, InPacketiser.step,
              InPacketiser.next_packet, if_neg h0, if_neg h1, gt_iff_lt,
              if_pos h2]
            rw [lastLenZero_cons _ _ hne]
            exact htail
          · have hrps : r = ps := by omega
            have hne : InPacketiser.traceFuel f ⟨np, 0, ps, true⟩ ≠ [] := by
              rw [Ne, InPacketiser.traceFuel_eq_nil_iff f _ (by omega)]
              simp
            have htail := ih ⟨np, 0, ps, true⟩ hps
              (by simp [InPacketiser.fuelMeasure]; omega)
            simp only [InPacketiser.traceFuel, InPacketiser.step,
              InPacketiser.next_packet, if_neg h0, if_neg h1, gt_iff_lt,
              if_neg h2, Nat.sub_self]
            rw [lastLenZero_cons _ _ hne]
            exact htail

theorem InPacketiser.dropLast_traceFuel (fuel : Nat) :
    ∀ p : InPacketiser, 0 < p.packet_size → p.fuelMeasure < fuel →
      (p.need_zero_size_packet = true → p.remain % p.packet_size = 0) →
      ∀ x ∈ (InPacketiser.traceFuel fuel p).dropLast,
        x.1 = p.packet_size := by
  induction fuel with
  | zero =>
    intro p hps hf
    exact absurd hf (Nat.not_lt_zero _)
  | succ f ih =>
    intro p hps hf hinv
    rcases p with ⟨np, r, ps, z⟩
    simp only [InPacketiser.fuelMeasure] at hf
    simp only at hps hf hinv
    cases z with
    | false =>
      simp only [Bool.false_eq_true, if_false, Nat.add_zero] at hf
      by_cases h0 : r = 0
      · subst h0
        simp [InPacketiser.traceFuel, InPacketiser.step,
          InPacketiser.next_packet]
      · by_cases h1 : r < ps
        · have htail : InPacketiser.traceFuel f ⟨np, 0, ps, false⟩ = [] := by
            rw [InPacketiser.traceFuel_eq_nil_iff f ⟨np, 0, ps, false⟩
              (by omega)]
            exact ⟨rfl, rfl⟩
          simp [InPacketiser.traceFuel, InPacketiser.step,
            InPacketiser.next_packet, h0, h1, htail]
        · by_cases h2 : ps < r
          · have hne : InPacketiser.traceFuel f ⟨np, r - ps, ps, false⟩ ≠ [] := by
              rw [Ne, InPacketiser.traceFuel_eq_nil_iff f _ (by omega)]
              intro h
              have h' : r - ps = 0 := h.1
              omega
            obtain ⟨y, ys, hys⟩ := List.exists_cons_of_ne_nil hne
            have htail := ih ⟨np, r - ps, ps, false⟩ hps
              (by simp [InPacketiser.fuelMeasure]; omega)
              (by intro hcon; exact absurd hcon (by simp))
            rw [hys] at htail
            simp only at htail
            simp only [InPacketiser.traceFuel, InPacketiser.step,
              InPacketiser.next_packet, if_neg h0, if_neg h1, gt_iff_lt,
              if_pos h2, hys, List.dropLast_cons₂]
            intro x hx
            rcases List.mem_cons.mp hx with hx1 | hx2
            · rw [hx1]
            · exact htail x hx2
          · have hrps : r = ps := by omega
            have htail : InPacketiser.traceFuel f ⟨np, 0, ps, false⟩ = [] := by
              rw [InPacketiser.traceFuel_eq_nil_iff f ⟨np, 0, ps, false⟩
                (by omega)]
              exact ⟨rfl, rfl⟩
            simp [InPacketiser.traceFuel, InPacketiser.step,
              InPacketiser.next_packet, h0, h1, h2, htail]
    | true =>
      simp only [if_true] at hf
      have hmod : r % ps = 0 := hinv rfl
      by_cases h0 : r = 0
      · subst h0
        have htail : InPacketiser.traceFuel f ⟨np, 0, ps, false⟩ = [] := by
          rw [InPacketiser.traceFuel_eq_nil_iff f ⟨np, 0, ps, false⟩
            (by omega)]
          exact ⟨rfl, rfl⟩
        simp [InPacketiser.traceFuel, InPacketiser.step,
          InPacketiser.next_packet, htail]
      · by_cases h1 : r < ps
        · exact absurd hmod (by rw [Nat.mod_eq_of_lt h1]; exact h0)
        · by_cases h2 : ps < r
          · have hmod' : (r - ps) % ps = 0 :=
              Nat.mod_eq_zero_of_dvd
                (Nat.dvd_sub' (Nat.dvd_of_mod_eq_zero hmod) dvd_rfl)
            have hne : InPacketiser.traceFuel f ⟨np, r - ps, ps, true⟩ ≠ [] := by
              rw [Ne, InPacketiser.traceFuel_eq_nil_iff f _ (by omega)]
              simp
            obtain ⟨y, ys, hys⟩ := List.exists_cons_of_ne_nil hne
            have htail := ih ⟨np, r - ps, ps, true⟩ hps
              (by simp [InPacketiser.fuelMeasure]; omega)
              (by intro _; exact hmod')
            rw [hys] at htail
            simp only at htail
            simp only [InPacketiser.traceFuel, InPacketiser.step,
              InPacketiser.next_packet, if_neg h0, if_neg h1, gt_iff_lt,
              if_pos h2, hys, List.dropLast_cons₂]
            intro x hx
            rcases List.mem_cons.mp hx with hx1 | hx2
            · rw [hx1]
            · exact htail x hx2
          · have hrps : r = ps := by omega
            have hne : InPacketiser.traceFuel f ⟨np, 0, ps, true⟩ ≠ [] := by
              rw [Ne, InPacketiser.traceFuel_eq_nil_iff f _ (by omega)]
              simp
            obtain ⟨y, ys, hys⟩ := List.exists_cons_of_ne_nil hne
            have htail := ih ⟨np, 0, ps, true⟩ hps
              (by simp [InPacketiser.fuelMeasure]; omega)
              (by intro _; exact Nat.zero_mod ps)
            rw [hys] at htail
            simp only at htail
            simp only [InPacketiser.traceFuel, InPacketiser.step,
              InPacketiser.next_packet, if_neg h0, if_neg h1, gt_iff_lt,
              if_neg h2, Nat.sub_self, hys, List.dropLast_cons₂]
            intro x hx
            rcases List.mem_cons.mp hx with hx1 | hx2
            · rw [hx1]
              exact hrps
            · exact htail x hx2

theorem OutPacketiser.traceFuel_toIn (fuel : Nat) :
    ∀ p : OutPacketiser,
      OutPacketiser.traceFuel fuel p =
        InPacketiser.traceFuel fuel p.toIn := by
  induction fuel with
  | zero => intro p; rfl
  | succ f ih =>
    intro p
    rcases p with ⟨np, r, off, ps, z, bl⟩
    by_cases h0 : r = 0
    · subst h0
      cases z with
      | false =>
        simp [OutPacketiser.traceFuel, InPacketiser.traceFuel,
          OutPacketiser.step, InPacketiser.step, OutPacketiser.next_packet,
          InPacketiser.next_packet, OutPacketiser.toIn]
      | true =>
        have htail := ih ⟨np, 0, off + 0, ps, false, bl⟩
        simp [OutPacketiser.traceFuel, InPacketiser.traceFuel,
          OutPacketiser.step, InPacketiser.step, OutPacketiser.next_packet,
          InPacketiser.next_packet, OutPacketiser.toIn] at htail ⊢
        exact htail
    · by_cases h1 : r < ps
      · have htail := ih ⟨np, r - r, off + r, ps, z, bl⟩
        simp [OutPacketiser.traceFuel, InPacketiser.traceFuel,
          OutPacketiser.step, InPacketiser.step, OutPacketiser.next_packet,
          InPacketiser.next_packet, OutPacketiser.toIn, h0, h1] at htail ⊢
        exact htail
      · by_cases h2 : ps < r
        · have htail := ih ⟨np, r - ps, off + ps, ps, z, bl⟩
          simp [OutPacketiser.traceFuel, InPacketiser.traceFuel,
            OutPacketiser.step, InPacketiser.step, OutPacketiser.next_packet,
            InPacketiser.next_packet, OutPacketiser.toIn, h0, h1, h2]
            at htail ⊢
          exact htail
        · have htail := ih ⟨np, r - r, off + r, ps, z, bl⟩
          simp [OutPacketiser.traceFuel, InPacketiser.traceFuel,
            OutPacketiser.step, InPacketiser.step, OutPacketiser.next_packet,
            InPacketiser.next_packet, OutPacketiser.toIn, h0, h1, h2]
            at htail ⊢
          exact htail

theorem InPacketiser.fuelMeasure_new_lt (size ps : Nat) :
    (InPacketiser.new size ps).fuelMeasure < 2 * size + 2 := by
  simp only [InPacketiser.new, InPacketiser.fuelMeasure]
  split <;> omega

/-! ## Claim C1 -/

/-- Claim C1 counterexample: at `size = 0`, `packet_size = 64` the
in-packetiser DOES emit a (trailing) zero-length packet — its packet
sequence is exactly `[(0, true)]` — although the claim, which requires a
trailing zero-length packet iff `size > 0 ∧ size % packet_size = 0`,
predicts none when `size = 0`. -/
theorem trailing_zero_at_size_zero_cex :
    InPacketiser.run (InPacketiser.new 0 64) = [(0, true)] ∧
    ¬ (lastLenZero (InPacketiser.run (InPacketiser.new 0 64)) = true ↔
        (0 < (0 : Nat) ∧ 0 % 64 = 0)) := by
  decide

/-- Claim C1 (amended): for every `packet_size > 0`, both packetisers emit
a trailing zero-length packet iff `size % packet_size = 0` — including
`size = 0`, where the zero-length packet is the whole (status-stage) packet
sequence, rather than only for `size > 0` as claimed. -/
theorem trailing_zero_iff_exact_multiple (size ps buflen : Nat)
    (hps : 0 < ps) :
    lastLenZero (InPacketiser.run (InPacketiser.new size ps)) =
      (size % ps == 0)
    ∧ lastLenZero (OutPacketiser.run (OutPacketiser.new size ps buflen)) =
      (size % ps == 0) := by
  constructor
  · exact InPacketiser.lastLenZero_traceFuel (2 * size + 2)
      (InPacketiser.new size ps) hps (InPacketiser.fuelMeasure_new_lt size ps)
  · have hcorr : OutPacketiser.run (OutPacketiser.new size ps buflen) =
        InPacketiser.traceFuel (2 * size + 2) (InPacketiser.new size ps) :=
      OutPacketiser.traceFuel_toIn (2 * size + 2)
        (OutPacketiser.new size ps buflen)
    rw [hcorr]
    exact InPacketiser.lastLenZero_traceFuel (2 * size + 2)
      (InPacketiser.new size ps) hps (InPacketiser.fuelMeasure_new_lt size ps)

/-- Witness for C1's amended theorem at `size = 128`, `packet_size = 64`. -/
theorem trailing_zero_iff_exact_multiple_witness :
    0 < 64
    ∧ (lastLenZero (InPacketiser.run (InPacketiser.new 128 64)) =
        (128 % 64 == 0)
      ∧ lastLenZero (OutPacketiser.run (OutPacketiser.new 128 64 128)) =
        (128 % 64 == 0)) :=
  ⟨by decide, trailing_zero_iff_exact_multiple 128 64 128 (by decide)⟩

/-! ## Claim C2 -/

/-- Claim C2 (confirmed): for every `(size, packet_size)` with
`packet_size > 0`, the packet-length sequence produced by repeatedly
calling `OutPacketiser::next_packet` (with the `remain`/`offset` updates
`prepare` performs after each call) until it returns `None` sums exactly
to `size`, and every length before the final one equals `packet_size`;
moreover any iteration bound of at least `2 * size + 2` yields the same
(complete) sequence, i.e. the `None` answer has been reached. -/
theorem out_packetiser_trace_sums_to_size (size ps buflen : Nat)
    (hps : 0 < ps) :
    (((OutPacketiser.run (OutPacketiser.new size ps buflen)).map
        Prod.fst).sum = size)
    ∧ (∀ x ∈ (OutPacketiser.run (OutPacketiser.new size ps buflen)).dropLast,
        x.1 = ps)
    ∧ (∀ fuel, 2 * size + 2 ≤ fuel →
        OutPacketiser.traceFuel fuel (OutPacketiser.new size ps buflen) =
          OutPacketiser.run (OutPacketiser.new size ps buflen)) := by
  have hcorr : ∀ fuel, OutPacketiser.traceFuel fuel
        (OutPacketiser.new size ps buflen) =
      InPacketiser.traceFuel fuel (InPacketiser.new size ps) := by
    intro fuel
    exact OutPacketiser.traceFuel_toIn fuel (OutPacketiser.new size ps buflen)
  refine ⟨?_, ?_, ?_⟩
  · have h := InPacketiser.sum_traceFuel (2 * size + 2)
      (InPacketiser.new size ps) hps (InPacketiser.fuelMeasure_new_lt size ps)
    have hrun : OutPacketiser.run (OutPacketiser.new size ps buflen) =
        InPacketiser.traceFuel (2 * size + 2) (InPacketiser.new size ps) :=
      hcorr (2 * size + 2)
    rw [hrun]
    exact h
  · have hrun : OutPacketiser.run (OutPacketiser.new size ps buflen) =
        InPacketiser.traceFuel (2 * size + 2) (InPacketiser.new size ps) :=
      hcorr (2 * size + 2)
    rw [hrun]
    exact InPacketiser.dropLast_traceFuel (2 * size + 2)
      (InPacketiser.new size ps) hps (InPacketiser.fuelMeasure_new_lt size ps)
      (by
        intro h
        simp only [InPacketiser.new] at h ⊢
        simpa using h)
  · intro fuel hfuel
    have hstable := InPacketiser.traceFuel_stable fuel
      (InPacketiser.new size ps) (2 * size + 2) hps
      (by have := InPacketiser.fuelMeasure_new_lt size ps; omega)
      (InPacketiser.fuelMeasure_new_lt size ps)
    have hrun : OutPacketiser.run (OutPacketiser.new size ps buflen) =
        InPacketiser.traceFuel (2 * size + 2) (InPacketiser.new size ps) :=
      hcorr (2 * size + 2)
    rw [hrun, hcorr fuel]
    exact hstable

/-- Witness for C2 at `size = 130`, `packet_size = 64` (packet lengths
`[64, 64, 2]`). -/
theorem out_packetiser_trace_sums_to_size_witness :
    0 < 64
    ∧ ((OutPacketiser.run (OutPacketiser.new 130 64 130)).map
        Prod.fst).sum = 130 :=
  ⟨by decide, (out_packetiser_trace_sums_to_size 130 64 130 (by decide)).1⟩

/-! ## Claim C6 -/

theorem InDepacketiser.retire_offset_add_remain (d : InDepacketiser)
    (r : BufCtrl) :
    (d.retire r).1.offset + (d.retire r).1.remain = d.offset + d.remain := by
  rcases d with ⟨nr, rem, off⟩
  cases nr with
  | zero =>
    by_cases hf : r.full_0
    · simp [InDepacketiser.retire, hf]
      omega
    · simp [InDepacketiser.retire, hf]
  | succ n =>
    by_cases hf : r.full_1
    · simp [InDepacketiser.retire, hf]
      omega
    · simp [InDepacketiser.retire, hf]

theorem InDepacketiser.foldl_offset_add_remain (reads : List BufCtrl) :
    ∀ d : InDepacketiser,
      ((reads.foldl (fun s r => (s.retire r).1) d).offset +
        (reads.foldl (fun s r => (s.retire r).1) d).remain) =
      d.offset + d.remain := by
  induction reads with
  | nil => intro d; rfl
  | cons r rs ih =>
    intro d
    rw [List.foldl_cons]
    rw [ih ((d.retire r).1)]
    exact InDepacketiser.retire_offset_add_remain d r

theorem InDepacketiser.runTotal_le (size : Nat) (reads : List BufCtrl) :
    InDepacketiser.runTotal size reads ≤ size := by
  have h := InDepacketiser.foldl_offset_add_remain reads
    (InDepacketiser.new size)
  simp only [InDepacketiser.runTotal, InDepacketiser.runState,
    InDepacketiser.total]
  simp only [InDepacketiser.new] at h ⊢
  omega

theorem InDepacketiser.runTotal_zero (reads : List BufCtrl) :
    InDepacketiser.runTotal 0 reads = 0 := by
  have h := InDepacketiser.runTotal_le 0 reads
  omega

/-- Claim C6 (confirmed): for every sequence of `retire` calls with
arbitrary hardware-reported packet lengths, the depacketiser's final
`total()` never exceeds the requested transfer size, and each single
`retire` copies at most `min(remaining, reported length)` bytes out of the
packet it services. -/
theorem in_depacketiser_total_le_size :
    (∀ (size : Nat) (reads : List BufCtrl),
      InDepacketiser.runTotal size reads ≤ size)
    ∧ (∀ (d : InDepacketiser) (r : BufCtrl),
      (d.retire r).2 ≤
        min d.remain (if d.next_retire = 0 then r.length_0 else r.length_1)) := by
  constructor
  · exact InDepacketiser.runTotal_le
  · intro d r
    rcases d with ⟨nr, rem, off⟩
    cases nr with
    | zero =>
      by_cases hf : r.full_0
      · simp [InDepacketiser.retire, hf]
      · simp [InDepacketiser.retire, hf]
    | succ n =>
      by_cases hf : r.full_1
      · simp [InDepacketiser.retire, hf]
      · simp [InDepacketiser.retire, hf]

/-! ## Claim C5 -/

/-- Claim C5 (confirmed): when the engine resumes without
`trans_complete`, the error flags are inspected in the fixed priority
order data-sequence error, stall, receive overflow, receive timeout,
bit-stuff error, CRC error, and the first one set determines the returned
error; the classification is independent of the `nak_rec` bit, and a
status with no flag set (e.g. a NAK) makes the loop continue rather than
return an error. -/
theorem error_flags_priority_order (s : SieStatus)
    (htc : s.trans_complete = false) :
    errorCheck s =
      ((errorPriority s).find? (fun x => x.1)).map (fun x => x.2)
    ∧ (∀ b, errorCheck { s with nak_rec := b } = errorCheck s)
    ∧ (∀ rest, errorCheck s = none →
        runAwaitLoop (s :: rest) = runAwaitLoop rest) := by
  refine ⟨?_, ?_, ?_⟩
  · rcases s with ⟨tc, dse, st, nk, rov, rt, bse, ce⟩
    cases dse <;> cases st <;> cases rov <;> cases rt <;> cases bse <;>
      cases ce <;> rfl
  · intro b
    rfl
  · intro rest h
    simp [runAwaitLoop, htc, h]

/-- Witness for C5 at a status with only the stall flag set. -/
theorem error_flags_priority_order_witness :
    ({ stall_rec := true } : SieStatus).trans_complete = false
    ∧ errorCheck { stall_rec := true } =
      ((errorPriority ({ stall_rec := true } : SieStatus)).find?
        (fun x => x.1)).map (fun x => x.2) :=
  ⟨rfl, (error_flags_priority_order { stall_rec := true } rfl).1⟩

/-! ## Claim C3 -/

/-- Claim C3 counterexample: a control transfer with an In data phase
(`wLength = 8`, 8-byte buffer) performs only SendSetup and the IN data
stage — no zero-length OUT status stage appears anywhere in its
hardware-action trace, although the claim requires the data stage to be
followed by a status stage in the opposite direction. -/
theorem in_data_phase_no_status_stage_cex :
    (control_transfer 64 8 (DataPhase.In 8) [] []).1 =
      [HwTouch.setupStage, HwTouch.dataStage Direction.In 8]
    ∧ HwTouch.dataStage Direction.Out 0 ∉
        (control_transfer 64 8 (DataPhase.In 8) [] []).1 := by
  decide

/-- Claim C3 (amended): after an Out data stage, and when there is no data
stage, the status stage is a zero-length IN — in particular a transfer with
`data_phase = None` completes after SendSetup plus one zero-length IN; but
after an In data phase `control_transfer` issues no status stage at all
(the opposite-direction zero-length OUT required by the claim is absent). -/
theorem control_transfer_stage_structure (ps wL b : Nat)
    (dreads sreads : List BufCtrl) :
    (control_transfer ps wL DataPhase.None dreads sreads).1 =
      [HwTouch.setupStage, HwTouch.dataStage Direction.In 0]
    ∧ (wL ≤ b →
        (control_transfer ps wL (DataPhase.Out b) dreads sreads).1 =
          [HwTouch.setupStage, HwTouch.dataStage Direction.Out wL,
           HwTouch.dataStage Direction.In 0])
    ∧ (wL ≤ b →
        (control_transfer ps wL (DataPhase.In b) dreads sreads).1 =
          [HwTouch.setupStage, HwTouch.dataStage Direction.In wL]) := by
  refine ⟨?_, ?_, ?_⟩
  · simp [control_transfer, control_transfer_in]
  · intro h
    simp [control_transfer, control_transfer_out, control_transfer_in,
      Nat.not_lt.mpr h]
  · intro h
    simp [control_transfer, control_transfer_in, Nat.not_lt.mpr h]

/-- Witness for C3's amended theorem: an Out transfer of 8 bytes runs
SendSetup, the OUT data stage, then the zero-length IN status stage. -/
theorem control_transfer_stage_structure_witness :
    (control_transfer 64 8 (DataPhase.Out 8) [] []).1 =
      [HwTouch.setupStage, HwTouch.dataStage Direction.Out 8,
       HwTouch.dataStage Direction.In 0] :=
  (control_transfer_stage_structure 64 8 8 [] []).2.1 (by decide)

/-! ## Claim C4 -/

/-- Claim C4 counterexample: a successful Out control transfer with
`wLength = 1` returns `Ok(0)` — the value of the zero-length status stage —
not `Ok(wLength) = Ok(1)` as the claim states (the data stage's
`Ok(buf.len())` is discarded by the `?` operator). -/
theorem out_transfer_returns_zero_cex :
    (control_transfer 64 1 (DataPhase.Out 1) [] []).2 = Except.ok 0
    ∧ (control_transfer 64 1 (DataPhase.Out 1) [] []).2 ≠ Except.ok 1 := by
  constructor
  · rfl
  · intro h
    rw [show (control_transfer 64 1 (DataPhase.Out 1) [] []).2 =
        Except.ok 0 from rfl] at h
    simp at h

/-- Claim C4 (amended): on the successful path, `control_transfer` returns
the depacketiser byte total (the bytes received) for `DataPhase::In`, but
`Ok(0)` — the result of the zero-length IN status stage — for
`DataPhase::Out` (not the bytes sent), and `Ok(0)` for `DataPhase::None`. -/
theorem control_transfer_return_values (ps wL b : Nat)
    (dreads sreads : List BufCtrl) :
    (control_transfer ps wL DataPhase.None dreads sreads).2 = Except.ok 0
    ∧ (wL ≤ b →
        (control_transfer ps wL (DataPhase.Out b) dreads sreads).2 =
          Except.ok 0)
    ∧ (wL ≤ b →
        (control_transfer ps wL (DataPhase.In b) dreads sreads).2 =
          Except.ok (InDepacketiser.runTotal wL dreads)) := by
  refine ⟨?_, ?_, ?_⟩
  · simp [control_transfer, control_transfer_in,
      InDepacketiser.runTotal_zero]
  · intro h
    simp [control_transfer, control_transfer_out, control_transfer_in,
      Nat.not_lt.mpr h, InDepacketiser.runTotal_zero]
  · intro h
    simp [control_transfer, control_transfer_in, Nat.not_lt.mpr h]

/-- Witness for C4's amended theorem: the Out branch at `wLength = 8`
returns `Ok(0)`. -/
theorem control_transfer_return_values_witness :
    (control_transfer 64 8 (DataPhase.Out 8) [] []).2 = Except.ok 0 :=
  (control_transfer_return_values 64 8 8 [] []).2.1 (by decide)

/-! ## Claim C7 -/

/-- Claim C7 counterexample: with a too-small In buffer (`wLength = 1`,
empty buffer) the call does return `Err(BufferTooSmall)`, but its
hardware-action trace is non-empty — the SETUP stage has already touched
hardware before the buffer check, contradicting the claim that the check
precedes any hardware access of the transfer. -/
theorem buffer_check_after_setup_cex :
    (control_transfer 64 1 (DataPhase.In 0) [] []).2 =
      Except.error UsbError.BufferTooSmall
    ∧ (control_transfer 64 1 (DataPhase.In 0) [] []).1 = [HwTouch.setupStage]
    ∧ (control_transfer 64 1 (DataPhase.In 0) [] []).1 ≠ [] := by
  refine ⟨rfl, rfl, ?_⟩
  intro h
  have h' : ([HwTouch.setupStage] : List HwTouch) = [] := h
  exact absurd h' (by simp)

/-- Claim C7 (amended): a data-phase buffer smaller than `wLength` makes
`control_transfer` return `Err(BufferTooSmall)` (on the path where the
SETUP stage completed), and the check is made before any data-stage
hardware programming — inside `control_transfer_in`/`out` nothing touches
hardware before the check — but the SETUP stage has already been executed,
so the overall trace is exactly `[setupStage]` rather than empty. -/
theorem buffer_too_small_before_data_stage (ps wL b : Nat)
    (dreads sreads : List BufCtrl) (h : b < wL) :
    ((control_transfer ps wL (DataPhase.In b) dreads sreads).2 =
        Except.error UsbError.BufferTooSmall
      ∧ (control_transfer ps wL (DataPhase.In b) dreads sreads).1 =
        [HwTouch.setupStage])
    ∧ ((control_transfer ps wL (DataPhase.Out b) dreads sreads).2 =
        Except.error UsbError.BufferTooSmall
      ∧ (control_transfer ps wL (DataPhase.Out b) dreads sreads).1 =
        [HwTouch.setupStage])
    ∧ (control_transfer_in wL b dreads).1 = []
    ∧ (control_transfer_out wL b).1 = [] := by
  refine ⟨⟨?_, ?_⟩, ⟨?_, ?_⟩, ?_, ?_⟩ <;>
    simp [control_transfer, control_transfer_in, control_transfer_out, h]

/-- Witness for C7's amended theorem at `wLength = 1`, empty buffer. -/
theorem buffer_too_small_before_data_stage_witness :
    (0 : Nat) < 1
    ∧ (control_transfer_in 1 0 []).1 = [] :=
  ⟨by decide, (buffer_too_small_before_data_stage 64 1 0 [] [] (by decide)).2.2.1⟩

/-! ## Claim C8 -/

theorem InPacketiser.armedPids_alternating (regs : List BufCtrl) :
    ∀ p : InPacketiser,
      alternating (p.next_prep == 0) (InPacketiser.armedPids p regs) =
        true := by
  induction regs with
  | nil => intro p; rfl
  | cons r rs ih =>
    intro p
    rcases p with ⟨np, rem, ps, z⟩
    cases np with
    | zero =>
      by_cases ha : r.available_0
      · simp only [InPacketiser.armedPids, InPacketiser.prepare, ha,
          if_true]
        exact ih ⟨0, rem, ps, z⟩
      · rcases hnp : InPacketiser.next_packet ⟨0, rem, ps, z⟩ with
          _ | ⟨⟨len, lastb⟩, p'⟩
        · simp only [InPacketiser.armedPids, InPacketiser.prepare, ha,
            if_false, hnp]
          exact ih ⟨0, rem, ps, z⟩
        · have h2 := ih { p' with remain := p'.remain - len, next_prep := 1 }
          simp only [InPacketiser.armedPids, InPacketiser.prepare, ha,
            if_false, hnp]
          simp only [alternating]
          simpa using h2
    | succ n =>
      by_cases ha : r.available_1
      · simp only [InPacketiser.armedPids, InPacketiser.prepare, ha,
          if_true]
        exact ih ⟨n + 1, rem, ps, z⟩
      · rcases hnp : InPacketiser.next_packet ⟨n + 1, rem, ps, z⟩ with
          _ | ⟨⟨len, lastb⟩, p'⟩
        · simp only [InPacketiser.armedPids, InPacketiser.prepare, ha,
            if_false, hnp]
          exact ih ⟨n + 1, rem, ps, z⟩
        · have h2 := ih { p' with remain := p'.remain - len, next_prep := 0 }
          simp only [InPacketiser.armedPids, InPacketiser.prepare, ha,
            if_false, hnp]
          simp only [alternating]
          simpa using h2

theorem Rp2040InterruptPipe.pollPids_alternating (mps : Nat)
    (reads : List (BufCtrl × List Nat)) :
    ∀ dt : Bool,
      alternating (!dt) (Rp2040InterruptPipe.pollPids mps dt reads) =
        true := by
  induction reads with
  | nil => intro dt; rfl
  | cons x rs ih =>
    intro dt
    rcases x with ⟨bc, mem⟩
    by_cases hfull : bc.full_0
    · simp only [Rp2040InterruptPipe.pollPids, Rp2040InterruptPipe.poll,
        hfull, if_true]
      simp only [alternating]
      simpa using ih (!dt)
    · simp only [Rp2040InterruptPipe.pollPids, Rp2040InterruptPipe.poll,
        hfull, if_false]
      exact ih dt

/-- Claim C8 counterexample: the pid sequence written to the
buffer-control field by `InPacketiser::prepare` for a 128-byte / 64-byte
transfer is `[true, false]` — it starts with `true` (half 0 is armed with
`pid_0().set_bit()`), not with `false` as the claim states. -/
theorem in_packetiser_pid_starts_true_cex :
    InPacketiser.armedPids (InPacketiser.new 128 64) [{}, {}] =
      [true, false]
    ∧ alternating false
        (InPacketiser.armedPids (InPacketiser.new 128 64) [{}, {}]) =
      false := by
  decide

/-- Claim C8 (amended): on any one pipe the pid bit written to the
buffer-control field strictly alternates across consecutive
successfully-armed packets and never changes otherwise; the interrupt
pipe's sequence (initial arm included) starts `false, true, ...`, but the
control-pipe packetiser's sequence starts `true, false, ...` (buffer half
0 is always armed with pid set, half 1 with pid clear). -/
theorem pid_alternation_per_pipe (size ps : Nat) (regs : List BufCtrl)
    (mps : Nat) (reads : List (BufCtrl × List Nat)) (dt : Bool)
    (bc : BufCtrl) (mem : List Nat) :
    alternating true
      (InPacketiser.armedPids (InPacketiser.new size ps) regs) = true
    ∧ alternating Rp2040InterruptPipe.initialPid
        (Rp2040InterruptPipe.initialPid ::
          Rp2040InterruptPipe.pollPids mps Rp2040InterruptPipe.initialPid
            reads) = true
    ∧ (bc.full_0 = false → (Rp2040InterruptPipe.poll dt mps bc mem).1 = dt)
    ∧ (∀ q : InPacketiser,
        (q.prepare bc).2.2 = none → (q.prepare bc).1 = q) := by
  refine ⟨?_, ?_, ?_, ?_⟩
  · simpa using InPacketiser.armedPids_alternating regs
      (InPacketiser.new size ps)
  · simp only [Rp2040InterruptPipe.initialPid, alternating]
    simpa using Rp2040InterruptPipe.pollPids_alternating mps reads false
  · intro h
    simp [Rp2040InterruptPipe.poll, h]
  · intro q h
    rcases q with ⟨np, rem, psq, z⟩
    cases np with
    | zero =>
      by_cases ha : bc.available_0
      · simp [InPacketiser.prepare, ha]
      · rcases hnp : InPacketiser.next_packet ⟨0, rem, psq, z⟩ with
          _ | ⟨⟨len, lastb⟩, p'⟩
        · simp [InPacketiser.prepare, ha, hnp]
        · simp [InPacketiser.prepare, ha, hnp] at h
    | succ n =>
      by_cases ha : bc.available_1
      · simp [InPacketiser.prepare, ha]
      · rcases hnp : InPacketiser.next_packet ⟨n + 1, rem, psq, z⟩ with
          _ | ⟨⟨len, lastb⟩, p'⟩
        · simp [InPacketiser.prepare, ha, hnp]
        · simp [InPacketiser.prepare, ha, hnp] at h

/-- Witness for C8's amended theorem: the packetiser pid sequence for a
128/64 transfer alternates starting `true`, and a poll on a non-full
buffer leaves the toggle unchanged. -/
theorem pid_alternation_per_pipe_witness :
    alternating true
      (InPacketiser.armedPids (InPacketiser.new 128 64) [{}, {}]) = true
    ∧ (Rp2040InterruptPipe.poll false 64 {} []).1 = false :=
  ⟨(pid_alternation_per_pipe 128 64 [{}, {}] 64 [] false {} []).1,
   (pid_alternation_per_pipe 128 64 [{}, {}] 64 [] false {} []).2.2.1 rfl⟩

/-! ## Claim C9 -/

/-- Claim C9: evaluation at the failing input.  An OUT data phase with
`size = 64`, `packet_size = 64` and a buffer of exactly 64 bytes first
prepares the full 64-byte packet into half 0 (reading indices 0..63), and
then prepares the zero-length terminating packet into half 1 — where the
unguarded `&self.buf[self.offset]` bounds-checks index 64, one past the
end of the buffer (a panic in Rust); half 0's `if this_packet > 0` guard
is missing from the half-1 branch. -/
theorem out_packetiser_half1_oob_access :
    (OutPacketiser.new 64 64 64).buflen = 64
    ∧ OutPacketiser.runAccesses 2 (OutPacketiser.new 64 64 64) =
        List.range' 0 64 ++ [64]
    ∧ ¬ (∀ i ∈ OutPacketiser.runAccesses 2 (OutPacketiser.new 64 64 64),
          i < (OutPacketiser.new 64 64 64).buflen) := by
  decide

/-! ## Claim C10 -/

/-- Claim C10 (confirmed): every `InterruptPacket` returned by `poll` —
single-endpoint or multiplexed — has `size = min(reported length, 64) ≤ 64`,
and exactly `size` bytes are copied from the 64-byte DPRAM window into its
data buffer, even when the buffer-control register reports a length
greater than 64. -/
theorem interrupt_packet_size_le_64 :
    (∀ (dt : Bool) (mps : Nat) (bc : BufCtrl) (mem : List Nat)
        (p : InterruptPacket),
        (Rp2040InterruptPipe.poll dt mps bc mem).2.2 = some p →
          p.size ≤ 64 ∧ (64 ≤ mem.length → p.data.length = p.size))
    ∧ (∀ (pipes : List (PipeInfo × BufCtrl × List Nat))
        (p : InterruptPacket),
        Rp2040MultiInterruptPipe.poll pipes = some p →
          p.size ≤ 64 ∧
          ((∀ x ∈ pipes, 64 ≤ x.2.2.length) → p.data.length = p.size)) := by
  constructor
  · intro dt mps bc mem p hp
    by_cases hfull : bc.full_0
    · simp only [Rp2040InterruptPipe.poll, hfull, if_true,
        Option.some.injEq] at hp
      subst hp
      constructor
      · exact Nat.min_le_right _ _
      · intro hmem
        simp only [List.length_take]
        have : min bc.length_0 64 ≤ 64 := Nat.min_le_right _ _
        omega
    · simp [Rp2040InterruptPipe.poll, hfull] at hp
  · intro pipes
    induction pipes with
    | nil =>
      intro p hp
      simp [Rp2040MultiInterruptPipe.poll] at hp
    | cons x rest ih =>
      intro p hp
      rcases x with ⟨info, bc, mem⟩
      by_cases hfull : bc.full_0
      · simp only [Rp2040MultiInterruptPipe.poll, hfull, if_true,
          Option.some.injEq] at hp
        subst hp
        constructor
        · exact Nat.min_le_right _ _
        · intro hall
          have hmem : 64 ≤ mem.length := by
            have := hall (info, bc, mem) (List.mem_cons_self _ _)
            simpa using this
          simp only [List.length_take]
          have : min bc.length_0 64 ≤ 64 := Nat.min_le_right _ _
          omega
      · simp only [Rp2040MultiInterruptPipe.poll, hfull, if_false] at hp
        obtain ⟨h1, h2⟩ := ih p hp
        refine ⟨h1, fun hall => h2 ?_⟩
        intro y hy
        exact hall y (List.mem_cons_of_mem _ hy)

/-- Witness for C10: a full buffer half reporting 70 bytes yields a packet
of size `min 70 64 = 64 ≤ 64`. -/
theorem interrupt_packet_size_le_64_witness :
    ({ size := 64, data := List.replicate 64 0 } : InterruptPacket).size ≤
      64 :=
  (interrupt_packet_size_le_64.1 false 8 { full_0 := true, length_0 := 70 }
    (List.replicate 64 0) { size := 64, data := List.replicate 64 0 }
    (by decide)).1
